import Mathlib

/-!
Shallow embedding of the PTT crawler's temporal range locator and predicate
query pipeline (`src/crawler.py`, class `PTTCrawler`).

Modelling conventions:

* Timestamps are integers counting seconds: a parsed `datetime` becomes the
  number of seconds it denotes, and its `.time()` (time-of-day) component
  becomes that integer modulo 86400 (comparison of Python `time` objects is
  the order on these residues).  Ten minutes is 600 seconds.
* An `Article` keeps the fields the pipeline inspects: `date` is the parsed
  timestamp (`none` models a missing date string or one that fails to parse
  against `'%a %b %d %H:%M:%S %Y'` — both are skipped identically by the
  code), and `comments` is the comment list.
* A board is a function `post : Nat → Option Article`; `post i = none`
  models every way `get_post(board, index=i)` fails to yield an article
  (a raised exception or a missing/deleted entry) — the code skips all of
  them in the same way.  A `search_list`-filtered board is simply another
  such function, so the search variants take their own board view.
* `get_newest_index` is modelled as an `Option Nat` (`none` = the call
  raises); query functions return `Option` results where `none` models an
  exception propagating to the caller.
* The sampling `while` loop of `find_article_range_by_time` decrements its
  index by `sample_interval ≥ 1` each iteration, so the initial index
  bounds the number of iterations; the loop is embedded structurally with
  that bound as fuel (`collectSamplesAux`), and fuel sufficiency is proved
  (`C9_sampling_terminates`).
-/

namespace Crawler

/-- Comment record: the two fields the comment predicates inspect. -/
structure Comment where
  author : List Char
  content : List Char
deriving DecidableEq

/-- Article record with the fields the query pipeline inspects.  `date` is
the parsed timestamp in seconds, `none` when the date string is missing or
unparseable. -/
structure Article where
  date : Option Int
  comments : List Comment
deriving DecidableEq

/-- Time-of-day component (in seconds) of a timestamp: models `.time()` of
a parsed `datetime`. -/
def sampleTod (dtm : Int) : Int := dtm % 86400

/-- Early-stop test of the sampling loop (crawler.py lines 309-321), run
right after appending a sample when at least two samples exist: with
`prevDt` the previous sample's datetime and `dtm` the new sample's, the
loop breaks when the new sample's time-of-day is before `target_start` and
`target_start - time` exceeds `tolerance * 2`, where
`tolerance = max(timedelta(minutes=10), abs(prevDt - dtm))`. -/
def earlyStop (tStart prevDt dtm : Int) : Bool :=
  decide (sampleTod dtm < tStart) &&
    decide (2 * max 600 |prevDt - dtm| < tStart - sampleTod dtm)

/-- Sampling loop of `find_article_range_by_time` (crawler.py lines
294-335).  `current` is `current_index`, `acc` is the `samples` list in
reverse collection order (most recent sample first; Python appends).  Each
iteration: fetch `post current`; on an article with a parseable date,
append the sample and, when a previous sample exists, break if `earlyStop`
fires; then decrement by `stride` and break once 1000 samples are
collected.  `fuel` bounds the number of iterations (the caller passes the
start index, which suffices for any `stride ≥ 1`). -/
def collectSamplesAux (post : Nat → Option Article) (tStart : Int) (stride : Nat) :
    Nat → Nat → List (Nat × Int) → List (Nat × Int)
  | 0, _, acc => acc
  | fuel + 1, current, acc =>
    if current = 0 then acc
    else
      match post current with
      | none =>
        if 1000 ≤ acc.length then acc
        else collectSamplesAux post tStart stride fuel (current - stride) acc
      | some a =>
        match a.date with
        | none =>
          if 1000 ≤ acc.length then acc
          else collectSamplesAux post tStart stride fuel (current - stride) acc
        | some dtm =>
          match acc with
          | [] =>
            if 1000 ≤ ([(current, dtm)] : List (Nat × Int)).length then [(current, dtm)]
            else collectSamplesAux post tStart stride fuel (current - stride) [(current, dtm)]
          | prev :: tl =>
            if earlyStop tStart prev.2 dtm then (current, dtm) :: prev :: tl
            else if 1000 ≤ ((current, dtm) :: prev :: tl).length then
              (current, dtm) :: prev :: tl
            else
              collectSamplesAux post tStart stride fuel (current - stride)
                ((current, dtm) :: prev :: tl)

/-- Samples collected by one locate operation, in collection order
(descending index, as Python's `samples` list). -/
def collectSamples (post : Nat → Option Article) (tStart : Int) (stride : Nat)
    (newest : Nat) : List (Nat × Int) :=
  (collectSamplesAux post tStart stride newest newest []).reverse

/-- Bracket scan of the locator (crawler.py lines 345-350): walk the
samples in collection order; the first sample whose time-of-day is
`≤ target_end` sets `end_index = idx + stride` (only while unset); the
first sample whose time-of-day is `≤ target_start` sets
`start_index = max(1, idx - stride)` and breaks. -/
def scanSamples (tStart tEnd : Int) (stride : Nat) :
    List (Nat × Int) → Option Nat → Option Nat × Option Nat
  | [], endIdx => (none, endIdx)
  | (idx, dtm) :: rest, endIdx =>
    let endIdx' := if sampleTod dtm ≤ tEnd ∧ endIdx = none then some (idx + stride) else endIdx
    if sampleTod dtm ≤ tStart then (some (max 1 (idx - stride)), endIdx')
    else scanSamples tStart tEnd stride rest endIdx'

/-- Range locator on a collected sample list (crawler.py lines 337-358):
fewer than 2 samples yields `(None, None)`; otherwise the scan result with
defaults `end_index = samples[0][0]` (newest sampled index) and
`start_index = max(1, samples[-1][0] - stride)` (oldest sampled index
minus stride). -/
def locate (samples : List (Nat × Int)) (tStart tEnd : Int) (stride : Nat) :
    Option (Nat × Nat) :=
  if samples.length < 2 then none
  else
    let se := scanSamples tStart tEnd stride samples none
    let endIdx :=
      match se.2 with
      | some e => e
      | none => (samples.headD (0, 0)).1
    let startIdx :=
      match se.1 with
      | some s => s
      | none => max 1 ((samples.getLastD (0, 0)).1 - stride)
    some (startIdx, endIdx)

/-- Embedding of `PTTCrawler.find_article_range_by_time` (crawler.py lines 259-358):
sample the board backward from `newest`, then locate the bracket. -/
def find_article_range_by_time (post : Nat → Option Article) (newest : Nat)
    (tStart tEnd : Int) (stride : Nat) : Option (Nat × Nat) :=
  locate (collectSamples post tStart stride newest) tStart tEnd stride

/-- Spec-side formula for the locator's `high` bound, written from the
spec's words: the index of the first sample (in collection order) whose
time is `≤ windowEnd`, plus one stride; defaulting to the newest sampled
index when no such sample exists. -/
def specHigh (samples : List (Nat × Int)) (tEnd : Int) (stride : Nat) : Nat :=
  match samples.find? fun p => decide (sampleTod p.2 ≤ tEnd) with
  | some p => p.1 + stride
  | none => (samples.headD (0, 0)).1

/-- Spec-side formula for the locator's `low` bound, written from the
spec's words: `max(1, idx - stride)` for the first sample whose time is
`≤ windowStart`; defaulting to `max(1, oldest_sample_index - stride)`. -/
def specLow (samples : List (Nat × Int)) (tStart : Int) (stride : Nat) : Nat :=
  match samples.find? fun p => decide (sampleTod p.2 ≤ tStart) with
  | some p => max 1 (p.1 - stride)
  | none => max 1 ((samples.getLastD (0, 0)).1 - stride)

/-- Claim-side early-stop condition, written from the claim's words: the
two most recent samples' timestamps are both earlier than the window's
start than by more than `tolerance = max(10 minutes, |Δt|) × 2`. -/
def earlyStopClaim (tStart prevDt dtm : Int) : Bool :=
  let tol := 2 * max 600 |prevDt - dtm|
  decide (tol < tStart - sampleTod prevDt) && decide (tol < tStart - sampleTod dtm)

/-- Dense fetch over an index bracket (crawler.py lines 224-234 and the
count-based loops): one fetch per index of `[lo, hi]` in ascending order,
skipping indices that yield no article. -/
def denseFetch (post : Nat → Option Article) (lo hi : Nat) : List (Nat × Article) :=
  (List.range' lo (hi + 1 - lo)).filterMap fun i => (post i).map fun a => (i, a)

/-- Exact time-of-day filter stage (crawler.py lines 236-257): keep the
fetched entries whose date parsed and whose time-of-day lies in
`[tStart, tEnd]`; entries with a missing or unparseable date are dropped. -/
def timeFilter (tStart tEnd : Int) (arts : List (Nat × Article)) : List (Nat × Article) :=
  arts.filter fun p =>
    match p.2.date with
    | some dtm => decide (tStart ≤ sampleTod dtm) && decide (sampleTod dtm ≤ tEnd)
    | none => false

/-- Embedding of `PTTCrawler._get_articles_by_time_range` (crawler.py lines 197-257)
after time-string parsing: locate the bracket (the locator is called with
the default `sample_interval = 100`), return `[]` on `(None, None)`,
otherwise densely fetch the bracket and filter by exact time-of-day. -/
def get_articles_by_time_range (post : Nat → Option Article) (newest : Nat)
    (tStart tEnd : Int) : List (Nat × Article) :=
  match find_article_range_by_time post newest tStart tEnd 100 with
  | none => []
  | some (lo, hi) => timeFilter tStart tEnd (denseFetch post lo hi)

/-- Python truthiness of an optional time string: `None` and the empty
string are falsy. -/
def truthy : Option (List Char) → Bool
  | none => false
  | some s => !s.isEmpty

/-- Model of Python `int()` on the digit strings appearing in `HH:MM`
time filters: all-digit nonempty strings parse, anything else raises
(`none`). -/
def digitsToNat? (s : List Char) : Option Nat :=
  if s ≠ [] ∧ s.all Char.isDigit then
    some (s.foldl (fun n c => 10 * n + (c.toNat - 48)) 0)
  else none

/-- Split a string at `':'`, modelling Python `s.split(':')`. -/
def splitColon : List Char → List (List Char)
  | [] => [[]]
  | c :: rest =>
    if c = ':' then [] :: splitColon rest
    else
      match splitColon rest with
      | h :: t => (c :: h) :: t
      | [] => [c] :: []

/-- Model of `start_h, start_m = map(int, s.split(':'))` followed by
`datetime.time(start_h, start_m)` (crawler.py lines 237-240, 279-282):
requires exactly two fields, both integers, with `h < 24` and `m < 60`
(`datetime.time` validates its arguments); yields the time-of-day in
seconds.  `none` models the raised `ValueError`. -/
def parseHM (s : List Char) : Option Int :=
  match splitColon s with
  | [h, m] =>
    (digitsToNat? h).bind fun hh =>
    (digitsToNat? m).bind fun mm =>
    if hh < 24 ∧ mm < 60 then some ((hh * 3600 + mm * 60 : Nat) : Int) else none
  | _ => none

/-- Count-based fetch path (crawler.py lines 45-62): fetch indices
`max(1, newest - count + 1) .. newest` in ascending order, skipping
failures. -/
def countFetch (post : Nat → Option Article) (newest count : Nat) : List (Nat × Article) :=
  denseFetch post (max 1 (newest + 1 - count)) newest

/-- Embedding of `PTTCrawler.get_articles` (crawler.py lines 26-62): when both time
strings are truthy, parse them and run the time-range pipeline (the parse
happens first inside `find_article_range_by_time`, before
`get_newest_index`); otherwise the count-based path, whose
`get_newest_index` call is not guarded by `try`. -/
def get_articles (post : Nat → Option Article) (newestF : Option Nat) (count : Nat)
    (startTime endTime : Option (List Char)) : Option (List (Nat × Article)) :=
  if truthy startTime && truthy endTime then
    (parseHM (startTime.getD [])).bind fun ts =>
    (parseHM (endTime.getD [])).bind fun te =>
    newestF.map fun newest => get_articles_by_time_range post newest ts te
  else
    newestF.map fun newest => countFetch post newest count

/-- Embedding of `PTTCrawler.search_by_title` (crawler.py lines 64-112): the board view
`post`/`newestF` is the `search_list`-filtered one; the count path wraps
`get_newest_index` in `try`/`except` returning `[]`. -/
def search_by_title (post : Nat → Option Article) (newestF : Option Nat) (count : Nat)
    (startTime endTime : Option (List Char)) : Option (List (Nat × Article)) :=
  if truthy startTime && truthy endTime then
    (parseHM (startTime.getD [])).bind fun ts =>
    (parseHM (endTime.getD [])).bind fun te =>
    newestF.map fun newest => get_articles_by_time_range post newest ts te
  else
    match newestF with
    | none => some []
    | some newest => some (countFetch post newest count)

/-- Embedding of `PTTCrawler.search_by_author` (crawler.py lines 114-161): identical
control flow to `search_by_title` over the author-filtered board view. -/
def search_by_author (post : Nat → Option Article) (newestF : Option Nat) (count : Nat)
    (startTime endTime : Option (List Char)) : Option (List (Nat × Article)) :=
  if truthy startTime && truthy endTime then
    (parseHM (startTime.getD [])).bind fun ts =>
    (parseHM (endTime.getD [])).bind fun te =>
    newestF.map fun newest => get_articles_by_time_range post newest ts te
  else
    match newestF with
    | none => some []
    | some newest => some (countFetch post newest count)

/-- Case folding used by the comment predicates: models Python
`str.lower()` (identical on the ASCII letters compared here; identity on
CJK text). -/
def lowerStr (s : List Char) : List Char := s.map Char.toLower

/-- One comment matches the keyword when
`keyword.lower() in comment.get('content', '').lower()` (substring test,
crawler.py line 191). -/
def commentHasKw (kw : List Char) (c : Comment) : Bool :=
  decide (lowerStr kw <:+: lowerStr c.content)

/-- Comment-keyword filtering stage of `search_by_comment_content`
(crawler.py lines 183-195): keep the articles some comment of which
contains the keyword; the inner loop breaks at the first matching
comment. -/
def commentKeywordFilter (kw : List Char) (arts : List (Nat × Article)) :
    List (Nat × Article) :=
  arts.filter fun p => p.2.comments.any (commentHasKw kw)

/-- Embedding of `PTTCrawler.search_by_comment_content` (crawler.py lines 163-195):
fetch via `get_articles`, then filter by comment keyword. -/
def search_by_comment_content (post : Nat → Option Article) (newestF : Option Nat)
    (kw : List Char) (count : Nat) (startTime endTime : Option (List Char)) :
    Option (List (Nat × Article)) :=
  (get_articles post newestF count startTime endTime).map (commentKeywordFilter kw)

/-- Comment-author filtering stage of `search_comments_by_author`
(crawler.py lines 380-392): case-insensitive equality against each
comment's author, breaking at the first match. -/
def commentAuthorFilter (author : List Char) (arts : List (Nat × Article)) :
    List (Nat × Article) :=
  arts.filter fun p => p.2.comments.any fun c => lowerStr c.author == lowerStr author

/-- Embedding of `PTTCrawler.search_comments_by_author` (crawler.py lines 360-392):
fetch via `get_articles`, then filter by comment author. -/
def search_comments_by_author (post : Nat → Option Article) (newestF : Option Nat)
    (author : List Char) (count : Nat) (startTime endTime : Option (List Char)) :
    Option (List (Nat × Article)) :=
  (get_articles post newestF count startTime endTime).map (commentAuthorFilter author)

/-- Backward scan of `get_articles_by_date_range` (crawler.py lines
438-456): `for i in range(newest, max(1, newest - 1000), -1)` — the stop
bound `stopExcl` is excluded.  Entries whose parsed date lies in
`[startT, endT]` are collected; a parsed date before `startT` breaks the
scan; fetch failures and unparseable dates are skipped. -/
def dateScan (post : Nat → Option Article) (startT endT : Int) (stopExcl : Nat) :
    Nat → List (Nat × Article)
  | 0 => []
  | n + 1 =>
    if n + 1 ≤ stopExcl then []
    else
      match post (n + 1) with
      | none => dateScan post startT endT stopExcl n
      | some a =>
        match a.date with
        | none => dateScan post startT endT stopExcl n
        | some dtm =>
          if startT ≤ dtm ∧ dtm ≤ endT then (n + 1, a) :: dateScan post startT endT stopExcl n
          else if dtm < startT then []
          else dateScan post startT endT stopExcl n

/-- Embedding of `PTTCrawler.get_articles_by_date_range` (crawler.py lines 411-465).
Calendar dates are day numbers; `datetime.strptime(d, '%Y-%m-%d')` yields
midnight of that day, i.e. `day * 86400` seconds. -/
def get_articles_by_date_range (post : Nat → Option Article) (newest : Nat)
    (sd ed : Int) : List (Nat × Article) :=
  dateScan post (sd * 86400) (ed * 86400) (max 1 (newest - 1000)) newest

/-! ### Characterization of the bracket scan -/

/-- The `start_index` component of the scan is determined by the first
sample whose time-of-day is at most `target_start`, independently of the
`end_index` accumulator. -/
theorem scanSamples_fst (tStart tEnd : Int) (stride : Nat) :
    ∀ (samples : List (Nat × Int)) (e0 : Option Nat),
      (scanSamples tStart tEnd stride samples e0).1 =
        (samples.find? fun p => decide (sampleTod p.2 ≤ tStart)).map
          (fun p => max 1 (p.1 - stride)) := by
  intro samples
  induction samples with
  | nil => intro e0; simp [scanSamples]
  | cons hd tl ih =>
    intro e0
    obtain ⟨idx, dtm⟩ := hd
    by_cases h : sampleTod dtm ≤ tStart
    · simp [scanSamples, h]
    · simp [scanSamples, h, ih]

/-- Once `end_index` is set it is never overwritten. -/
theorem scanSamples_snd_some (tStart tEnd : Int) (stride : Nat) :
    ∀ (samples : List (Nat × Int)) (x : Nat),
      (scanSamples tStart tEnd stride samples (some x)).2 = some x := by
  intro samples
  induction samples with
  | nil => intro x; simp [scanSamples]
  | cons hd tl ih =>
    intro x
    obtain ⟨idx, dtm⟩ := hd
    by_cases h : sampleTod dtm ≤ tStart <;> simp [scanSamples, h, ih]

/-- For a well-ordered window (`tStart ≤ tEnd`) the `end_index` component
of the scan is determined by the first sample whose time-of-day is at most
`target_end` (the early break at the first sample `≤ tStart` cannot hide
it, because such a sample is itself `≤ tEnd`). -/
theorem scanSamples_snd_none (tStart tEnd : Int) (stride : Nat) (hse : tStart ≤ tEnd) :
    ∀ samples : List (Nat × Int),
      (scanSamples tStart tEnd stride samples none).2 =
        (samples.find? fun p => decide (sampleTod p.2 ≤ tEnd)).map
          (fun p => p.1 + stride) := by
  intro samples
  induction samples with
  | nil => simp [scanSamples]
  | cons hd tl ih =>
    obtain ⟨idx, dtm⟩ := hd
    by_cases hE : sampleTod dtm ≤ tEnd
    · by_cases hS : sampleTod dtm ≤ tStart
      · simp [scanSamples, hE, hS]
      · simp [scanSamples, hE, hS, scanSamples_snd_some]
    · have hS : ¬ sampleTod dtm ≤ tStart := fun h => hE (le_trans h hse)
      simp [scanSamples, hE, hS, ih]

/-- The locator's bracket on at least two samples is exactly the spec-side
pair of formulas. -/
theorem locate_eq (samples : List (Nat × Int)) (tStart tEnd : Int) (stride : Nat)
    (h2 : 2 ≤ samples.length) (hse : tStart ≤ tEnd) :
    locate samples tStart tEnd stride =
      some (specLow samples tStart stride, specHigh samples tEnd stride) := by
  have hlt : ¬ samples.length < 2 := by omega
  simp only [locate, if_neg hlt, scanSamples_fst, scanSamples_snd_none tStart tEnd stride hse]
  cases hfS : samples.find? fun p => decide (sampleTod p.2 ≤ tStart) <;>
    cases hfE : samples.find? fun p => decide (sampleTod p.2 ≤ tEnd) <;>
      simp [specLow, specHigh, hfS, hfE]

/-- C1: For every sample sequence and every time window
`[windowStart, windowEnd]` handed to the bracket computation (at least two
samples, so the locator does not signal unresolved), the locator returns
`high` = index of the first sample whose time is `≤ windowEnd` plus the
stride, defaulting to the newest sampled index, and `low` = `max(1, index
of the first sample whose time ≤ windowStart − stride)`, defaulting to
`max(1, oldest sampled index − stride)`; in particular on samples
`[(1000, 15:00), (900, 14:30), (800, 13:50), (700, 13:00)]` with
stride 100 and window `13:00–14:00` it returns `(600, 900)`. -/
theorem C1_range_locator_formula :
    (∀ (samples : List (Nat × Int)) (tStart tEnd : Int) (stride : Nat),
        2 ≤ samples.length → tStart ≤ tEnd →
        locate samples tStart tEnd stride =
          some (specLow samples tStart stride, specHigh samples tEnd stride)) ∧
      locate [(1000, 54000), (900, 52200), (800, 49800), (700, 46800)] 46800 50400 100 =
        some (600, 900) :=
  ⟨fun samples tStart tEnd stride h2 hse => locate_eq samples tStart tEnd stride h2 hse,
    by decide⟩

/-- Witness for C1's universally quantified part, at the claim's own
scenario. -/
theorem C1_range_locator_formula_witness :
    locate [(1000, 54000), (900, 52200), (800, 49800), (700, 46800)] 46800 50400 100 =
      some (specLow [(1000, 54000), (900, 52200), (800, 49800), (700, 46800)] 46800 100,
        specHigh [(1000, 54000), (900, 52200), (800, 49800), (700, 46800)] 50400 100) :=
  C1_range_locator_formula.1 _ 46800 50400 100 (by decide) (by decide)


/-! ### Step lemmas for the sampling loop -/

/-- With the index at `0` the loop body never runs. -/
theorem collectSamplesAux_zero (post : Nat → Option Article) (tStart : Int) (stride : Nat) :
    ∀ (fuel : Nat) (acc : List (Nat × Int)),
      collectSamplesAux post tStart stride fuel 0 acc = acc := by
  intro fuel acc
  cases fuel <;> simp [collectSamplesAux]

/-- Loop step on a failed fetch. -/
theorem collectSamplesAux_step_skip (post : Nat → Option Article) (tStart : Int)
    (stride fuel current : Nat) (acc : List (Nat × Int)) (hc : current ≠ 0)
    (hpost : post current = none) :
    collectSamplesAux post tStart stride (fuel + 1) current acc =
      if 1000 ≤ acc.length then acc
      else collectSamplesAux post tStart stride fuel (current - stride) acc := by
  rw [collectSamplesAux]
  simp [hc, hpost]

/-- Loop step on an article whose date is missing or unparseable. -/
theorem collectSamplesAux_step_nodate (post : Nat → Option Article) (tStart : Int)
    (stride fuel current : Nat) (acc : List (Nat × Int)) (a : Article) (hc : current ≠ 0)
    (hpost : post current = some a) (hdate : a.date = none) :
    collectSamplesAux post tStart stride (fuel + 1) current acc =
      if 1000 ≤ acc.length then acc
      else collectSamplesAux post tStart stride fuel (current - stride) acc := by
  rw [collectSamplesAux]
  simp [hc, hpost, hdate]

/-- Loop step appending the first sample: no early-stop check is possible
and the 1000-sample ceiling is far from reached. -/
theorem collectSamplesAux_step_first (post : Nat → Option Article) (tStart : Int)
    (stride fuel current : Nat) (a : Article) (dtm : Int) (hc : current ≠ 0)
    (hpost : post current = some a) (hdate : a.date = some dtm) :
    collectSamplesAux post tStart stride (fuel + 1) current [] =
      collectSamplesAux post tStart stride fuel (current - stride) [(current, dtm)] := by
  rw [collectSamplesAux]
  simp [hc, hpost, hdate]

/-- Loop step appending a further sample: break when `earlyStop` fires or
the 1000-sample ceiling is reached, else continue one stride lower. -/
theorem collectSamplesAux_step_cons (post : Nat → Option Article) (tStart : Int)
    (stride fuel current : Nat) (a : Article) (dtm : Int) (prev : Nat × Int)
    (tl : List (Nat × Int)) (hc : current ≠ 0) (hpost : post current = some a)
    (hdate : a.date = some dtm) :
    collectSamplesAux post tStart stride (fuel + 1) current (prev :: tl) =
      if earlyStop tStart prev.2 dtm then (current, dtm) :: prev :: tl
      else if 1000 ≤ ((current, dtm) :: prev :: tl).length then (current, dtm) :: prev :: tl
      else collectSamplesAux post tStart stride fuel (current - stride)
        ((current, dtm) :: prev :: tl) := by
  rw [collectSamplesAux]
  simp [hc, hpost, hdate]

/-- Indices of collected samples are positive, bounded by the start index,
and (in the accumulator's reversed order) ascending: the loop only appends
the current index, which is positive and only ever decreases. -/
theorem collectSamplesAux_inv (post : Nat → Option Article) (tStart : Int) (stride : Nat)
    (N : Nat) :
    ∀ (fuel current : Nat) (acc : List (Nat × Int)),
      current ≤ N →
      (∀ p ∈ acc, current ≤ p.1 ∧ 1 ≤ p.1 ∧ p.1 ≤ N) →
      List.Pairwise (fun (a : Nat × Int) b => a.1 ≤ b.1) acc →
      (∀ p ∈ collectSamplesAux post tStart stride fuel current acc, 1 ≤ p.1 ∧ p.1 ≤ N) ∧
        List.Pairwise (fun (a : Nat × Int) b => a.1 ≤ b.1)
          (collectSamplesAux post tStart stride fuel current acc) := by
  intro fuel
  induction fuel with
  | zero =>
    intro current acc _ hacc hpw
    exact ⟨fun p hp => (hacc p (by simpa [collectSamplesAux] using hp)).2,
      by simpa [collectSamplesAux] using hpw⟩
  | succ fuel ih =>
    intro current acc hcN hacc hpw
    by_cases hc : current = 0
    · subst hc
      rw [collectSamplesAux_zero]
      exact ⟨fun p hp => (hacc p hp).2, hpw⟩
    · have hcN' : current - stride ≤ N := le_trans (Nat.sub_le _ _) hcN
      have hsub : ∀ p ∈ acc, current - stride ≤ p.1 ∧ 1 ≤ p.1 ∧ p.1 ≤ N := fun p hp =>
        ⟨le_trans (Nat.sub_le _ _) (hacc p hp).1, (hacc p hp).2.1, (hacc p hp).2.2⟩
      have hacc2 : ∀ p ∈ acc, 1 ≤ p.1 ∧ p.1 ≤ N := fun p hp => (hacc p hp).2
      have hcons : ∀ dtm : Int, ∀ p ∈ ((current, dtm) :: acc), 1 ≤ p.1 ∧ p.1 ≤ N := by
        intro dtm p hp
        rcases List.mem_cons.mp hp with h | h
        · subst h; exact ⟨by omega, hcN⟩
        · exact hacc2 p h
      have hconssub : ∀ dtm : Int, ∀ p ∈ ((current, dtm) :: acc),
          current - stride ≤ p.1 ∧ 1 ≤ p.1 ∧ p.1 ≤ N := by
        intro dtm p hp
        rcases List.mem_cons.mp hp with h | h
        · subst h; exact ⟨Nat.sub_le _ _, by omega, hcN⟩
        · exact hsub p h
      have hpwcons : ∀ dtm : Int, List.Pairwise (fun (a : Nat × Int) b => a.1 ≤ b.1)
          ((current, dtm) :: acc) :=
        fun dtm => List.pairwise_cons.mpr ⟨fun p hp => (hacc p hp).1, hpw⟩
      cases hpost : post current with
      | none =>
        rw [collectSamplesAux_step_skip post tStart stride fuel current acc hc hpost]
        by_cases hlen : 1000 ≤ acc.length
        · rw [if_pos hlen]
          exact ⟨hacc2, hpw⟩
        · rw [if_neg hlen]
          exact ih (current - stride) acc hcN' hsub hpw
      | some a =>
        cases hdate : a.date with
        | none =>
          rw [collectSamplesAux_step_nodate post tStart stride fuel current acc a hc hpost hdate]
          by_cases hlen : 1000 ≤ acc.length
          · rw [if_pos hlen]
            exact ⟨hacc2, hpw⟩
          · rw [if_neg hlen]
            exact ih (current - stride) acc hcN' hsub hpw
        | some dtm =>
          cases acc with
          | nil =>
            rw [collectSamplesAux_step_first post tStart stride fuel current a dtm hc hpost hdate]
            exact ih (current - stride) [(current, dtm)] hcN' (hconssub dtm) (hpwcons dtm)
          | cons prev tl =>
            rw [collectSamplesAux_step_cons post tStart stride fuel current a dtm prev tl hc
              hpost hdate]
            by_cases hstop : earlyStop tStart prev.2 dtm
            · rw [if_pos hstop]
              exact ⟨hcons dtm, hpwcons dtm⟩
            · rw [if_neg hstop]
              by_cases hlen : 1000 ≤ ((current, dtm) :: prev :: tl).length
              · rw [if_pos hlen]
                exact ⟨hcons dtm, hpwcons dtm⟩
              · rw [if_neg hlen]
                exact ih (current - stride) ((current, dtm) :: prev :: tl) hcN'
                  (hconssub dtm) (hpwcons dtm)

/-! ### Evaluation lemmas for the spec-side bounds -/

/-- The time-of-day search predicate holds at the head. -/
theorem find?_tod_cons_pos (c : Int) (idx : Nat) (dtm : Int) (tl : List (Nat × Int))
    (h : sampleTod dtm ≤ c) :
    List.find? (fun p : Nat × Int => decide (sampleTod p.2 ≤ c)) ((idx, dtm) :: tl) =
      some (idx, dtm) :=
  List.find?_cons_of_pos _ (by simpa using h)

/-- The time-of-day search predicate fails at the head. -/
theorem find?_tod_cons_neg (c : Int) (idx : Nat) (dtm : Int) (tl : List (Nat × Int))
    (h : ¬ sampleTod dtm ≤ c) :
    List.find? (fun p : Nat × Int => decide (sampleTod p.2 ≤ c)) ((idx, dtm) :: tl) =
      List.find? (fun p : Nat × Int => decide (sampleTod p.2 ≤ c)) tl :=
  List.find?_cons_of_neg _ (by simpa using h)

theorem specLow_cons_pos (tStart : Int) (stride idx : Nat) (dtm : Int)
    (tl : List (Nat × Int)) (h : sampleTod dtm ≤ tStart) :
    specLow ((idx, dtm) :: tl) tStart stride = max 1 (idx - stride) := by
  simp only [specLow, find?_tod_cons_pos tStart idx dtm tl h]

theorem specHigh_cons_pos (tEnd : Int) (stride idx : Nat) (dtm : Int)
    (tl : List (Nat × Int)) (h : sampleTod dtm ≤ tEnd) :
    specHigh ((idx, dtm) :: tl) tEnd stride = idx + stride := by
  simp only [specHigh, find?_tod_cons_pos tEnd idx dtm tl h]

theorem specLow_cons_neg_some (tStart : Int) (stride idx : Nat) (dtm : Int)
    (tl : List (Nat × Int)) (ps : Nat × Int) (h : ¬ sampleTod dtm ≤ tStart)
    (hf : List.find? (fun p : Nat × Int => decide (sampleTod p.2 ≤ tStart)) tl = some ps) :
    specLow ((idx, dtm) :: tl) tStart stride = max 1 (ps.1 - stride) := by
  simp only [specLow, find?_tod_cons_neg tStart idx dtm tl h, hf]

theorem specLow_cons_neg_none (tStart : Int) (stride idx : Nat) (dtm : Int)
    (tl : List (Nat × Int)) (h : ¬ sampleTod dtm ≤ tStart)
    (hf : List.find? (fun p : Nat × Int => decide (sampleTod p.2 ≤ tStart)) tl = none) :
    specLow ((idx, dtm) :: tl) tStart stride = max 1 ((tl.getLastD (idx, dtm)).1 - stride) := by
  simp only [specLow, find?_tod_cons_neg tStart idx dtm tl h, hf, List.getLastD_cons]

theorem specHigh_cons_neg_some (tEnd : Int) (stride idx : Nat) (dtm : Int)
    (tl : List (Nat × Int)) (pe : Nat × Int) (h : ¬ sampleTod dtm ≤ tEnd)
    (hf : List.find? (fun p : Nat × Int => decide (sampleTod p.2 ≤ tEnd)) tl = some pe) :
    specHigh ((idx, dtm) :: tl) tEnd stride = pe.1 + stride := by
  simp only [specHigh, find?_tod_cons_neg tEnd idx dtm tl h, hf]

theorem specHigh_cons_neg_none (tEnd : Int) (stride idx : Nat) (dtm : Int)
    (tl : List (Nat × Int)) (h : ¬ sampleTod dtm ≤ tEnd)
    (hf : List.find? (fun p : Nat × Int => decide (sampleTod p.2 ≤ tEnd)) tl = none) :
    specHigh ((idx, dtm) :: tl) tEnd stride = idx := by
  simp only [specHigh, find?_tod_cons_neg tEnd idx dtm tl h, hf, List.headD_cons]

/-- On a sample list with non-increasing indices, all of them positive,
the spec-side bounds satisfy `low ≤ high` for any well-ordered window. -/
theorem specLow_le_specHigh (tStart tEnd : Int) (stride : Nat) (hse : tStart ≤ tEnd) :
    ∀ samples : List (Nat × Int), samples ≠ [] →
      List.Pairwise (fun (a : Nat × Int) b => b.1 ≤ a.1) samples →
      (∀ p ∈ samples, 1 ≤ p.1) →
      specLow samples tStart stride ≤ specHigh samples tEnd stride := by
  intro samples
  induction samples with
  | nil => intro h; exact absurd rfl h
  | cons hd tl ih =>
    intro _ hpw hpos
    obtain ⟨idx, dtm⟩ := hd
    obtain ⟨hhd, hpwtl⟩ := List.pairwise_cons.mp hpw
    have hidx : 1 ≤ idx := hpos _ (List.mem_cons_self _ _)
    by_cases hS : sampleTod dtm ≤ tStart
    · have hE : sampleTod dtm ≤ tEnd := le_trans hS hse
      rw [specLow_cons_pos tStart stride idx dtm tl hS,
        specHigh_cons_pos tEnd stride idx dtm tl hE]
      omega
    · by_cases hE : sampleTod dtm ≤ tEnd
      · rw [specHigh_cons_pos tEnd stride idx dtm tl hE]
        cases hfS : List.find? (fun p : Nat × Int => decide (sampleTod p.2 ≤ tStart)) tl with
        | some ps =>
          rw [specLow_cons_neg_some tStart stride idx dtm tl ps hS hfS]
          have hmem : ps.1 ≤ idx := hhd ps (List.mem_of_find?_eq_some hfS)
          omega
        | none =>
          rw [specLow_cons_neg_none tStart stride idx dtm tl hS hfS]
          have hlast : (tl.getLastD (idx, dtm)).1 ≤ idx := by
            rcases List.mem_cons.mp (List.getLastD_mem_cons tl (idx, dtm)) with h | h
            · rw [h]
            · exact hhd _ h
          omega
      · cases tl with
        | nil =>
          rw [specLow_cons_neg_none tStart stride idx dtm [] hS List.find?_nil,
            specHigh_cons_neg_none tEnd stride idx dtm [] hE List.find?_nil]
          simp only [List.getLastD_nil]
          omega
        | cons t ts =>
          have hne : (t :: ts : List (Nat × Int)) ≠ [] := by simp
          have hIH := ih hne hpwtl (fun p hp => hpos p (List.mem_cons_of_mem _ hp))
          have hth : t.1 ≤ idx := hhd t (List.mem_cons_self _ _)
          cases hfS : List.find? (fun p : Nat × Int => decide (sampleTod p.2 ≤ tStart))
              (t :: ts) with
          | some ps =>
            rw [specLow_cons_neg_some tStart stride idx dtm (t :: ts) ps hS hfS]
            rw [specLow, hfS] at hIH
            cases hfE : List.find? (fun p : Nat × Int => decide (sampleTod p.2 ≤ tEnd))
                (t :: ts) with
            | some pe =>
              rw [specHigh_cons_neg_some tEnd stride idx dtm (t :: ts) pe hE hfE]
              rw [specHigh, hfE] at hIH
              exact hIH
            | none =>
              rw [specHigh_cons_neg_none tEnd stride idx dtm (t :: ts) hE hfE]
              rw [specHigh, hfE] at hIH
              simp only [List.headD_cons] at hIH
              omega
          | none =>
            have hlow : specLow ((idx, dtm) :: t :: ts) tStart stride =
                max 1 (((t :: ts).getLastD (0, 0)).1 - stride) := by
              rw [specLow_cons_neg_none tStart stride idx dtm (t :: ts) hS hfS,
                List.getLastD_cons, List.getLastD_cons]
            rw [hlow]
            rw [specLow, hfS] at hIH
            cases hfE : List.find? (fun p : Nat × Int => decide (sampleTod p.2 ≤ tEnd))
                (t :: ts) with
            | some pe =>
              rw [specHigh_cons_neg_some tEnd stride idx dtm (t :: ts) pe hE hfE]
              rw [specHigh, hfE] at hIH
              exact hIH
            | none =>
              rw [specHigh_cons_neg_none tEnd stride idx dtm (t :: ts) hE hfE]
              rw [specHigh, hfE] at hIH
              simp only [List.headD_cons] at hIH
              omega

/-- Elimination form of a successful locate: at least two samples, and the
two bounds are the scan results with their defaults. -/
theorem locate_some_elim (samples : List (Nat × Int)) (tStart tEnd : Int)
    (stride low high : Nat) (h : locate samples tStart tEnd stride = some (low, high)) :
    2 ≤ samples.length ∧
      low = (scanSamples tStart tEnd stride samples none).1.getD
        (max 1 ((samples.getLastD (0, 0)).1 - stride)) ∧
      high = (scanSamples tStart tEnd stride samples none).2.getD
        ((samples.headD (0, 0)).1) := by
  rw [locate] at h
  by_cases hlt : samples.length < 2
  · rw [if_pos hlt] at h
    exact absurd h (by simp)
  · rw [if_neg hlt] at h
    simp only [Option.some.injEq, Prod.mk.injEq] at h
    refine ⟨by omega, ?_, ?_⟩
    · rw [← h.1]
      cases h1 : (scanSamples tStart tEnd stride samples none).1 <;> simp [h1]
    · rw [← h.2]
      cases h2 : (scanSamples tStart tEnd stride samples none).2 <;> simp [h2]

/-- Positivity and boundedness of the collected sample indices, stated on
the sample list in collection order. -/
theorem collectSamples_mem_bounds (post : Nat → Option Article) (tStart : Int)
    (stride newest : Nat) :
    ∀ p ∈ collectSamples post tStart stride newest, 1 ≤ p.1 ∧ p.1 ≤ newest := by
  intro p hp
  have hinv := collectSamplesAux_inv post tStart stride newest newest newest []
    le_rfl (fun q hq => absurd hq (List.not_mem_nil q)) List.Pairwise.nil
  simp only [collectSamples, List.mem_reverse] at hp
  exact hinv.1 p hp

/-- The collected sample list has non-increasing indices in collection
order. -/
theorem collectSamples_desc (post : Nat → Option Article) (tStart : Int)
    (stride newest : Nat) :
    List.Pairwise (fun (a : Nat × Int) b => b.1 ≤ a.1)
      (collectSamples post tStart stride newest) := by
  have hinv := collectSamplesAux_inv post tStart stride newest newest newest []
    le_rfl (fun q hq => absurd hq (List.not_mem_nil q)) List.Pairwise.nil
  simp only [collectSamples]
  exact List.pairwise_reverse.mpr hinv.2

/-- C5: For every board state whose sampling yields at least 2 samples
(the locator returns a bracket rather than unresolved) and every window
with `windowStart ≤ windowEnd`, the returned bracket satisfies
`low ≤ high`. -/
theorem C5_bracket_ordered (post : Nat → Option Article) (newest : Nat) (tStart tEnd : Int)
    (stride low high : Nat) (hse : tStart ≤ tEnd)
    (h : find_article_range_by_time post newest tStart tEnd stride = some (low, high)) :
    low ≤ high := by
  rw [find_article_range_by_time] at h
  have h2 : 2 ≤ (collectSamples post tStart stride newest).length :=
    (locate_some_elim _ tStart tEnd stride low high h).1
  rw [locate_eq _ tStart tEnd stride h2 hse] at h
  simp only [Option.some.injEq, Prod.mk.injEq] at h
  obtain ⟨hl, hh⟩ := h
  have hne : collectSamples post tStart stride newest ≠ [] := by
    intro hnil
    rw [hnil] at h2
    simp at h2
  have hord := specLow_le_specHigh tStart tEnd stride hse _ hne
    (collectSamples_desc post tStart stride newest)
    (fun p hp => (collectSamples_mem_bounds post tStart stride newest p hp).1)
  omega

/-- Witness for C5 at a concrete board: both indices of the returned
bracket are computed and compared. -/
theorem C5_bracket_ordered_witness :
    (46800 : Int) ≤ 50400 ∧ (900 : Nat) ≤ 1100 :=
  ⟨by decide, C5_bracket_ordered (fun _ => some ⟨some 46800, []⟩) 1000 46800 50400 100
    900 1100 (by decide) (by decide)⟩

/-- The `end_index` accumulator of the scan is either left untouched or
set to some scanned sample's index plus the stride. -/
theorem scanSamples_snd_cases (tStart tEnd : Int) (stride : Nat) :
    ∀ (samples : List (Nat × Int)) (e0 : Option Nat),
      (scanSamples tStart tEnd stride samples e0).2 = e0 ∨
        ∃ p ∈ samples, (scanSamples tStart tEnd stride samples e0).2 = some (p.1 + stride) := by
  intro samples
  induction samples with
  | nil => intro e0; left; simp [scanSamples]
  | cons hd tl ih =>
    intro e0
    obtain ⟨idx, dtm⟩ := hd
    by_cases hS : sampleTod dtm ≤ tStart
    · by_cases hcond : sampleTod dtm ≤ tEnd ∧ e0 = none
      · right
        exact ⟨(idx, dtm), List.mem_cons_self _ _, by simp [scanSamples, hS, hcond]⟩
      · left
        simp [scanSamples, hS, hcond]
    · by_cases hcond : sampleTod dtm ≤ tEnd ∧ e0 = none
      · right
        refine ⟨(idx, dtm), List.mem_cons_self _ _, ?_⟩
        simp [scanSamples, hS, hcond, scanSamples_snd_some]
      · rcases ih e0 with h | ⟨p, hp, h⟩
        · left
          simpa [scanSamples, hS, hcond] using h
        · right
          exact ⟨p, List.mem_cons_of_mem _ hp, by simpa [scanSamples, hS, hcond] using h⟩

/-- C2 counterexample: on a board whose every index carries time `00:00`
(newest index 1000), window `00:10–00:10` and stride 100, the code's
bracket widening sets `high = 1000 + 100 = 1100 > newestIndex`; the claim
that both bounds lie within `[1, newestIndex]` is false. -/
theorem C2_counterexample :
    find_article_range_by_time (fun _ => some ⟨some 0, []⟩) 1000 600 600 100 =
        some (900, 1100) ∧
      ¬ (1100 ≤ 1000) := by
  constructor
  · decide
  · decide

/-- C2 amended: for every bracket the locator returns from at least 2
samples, `low ≥ 1` always holds, and `high` is bounded by
`newestIndex + stride` (not by `newestIndex`: the `+ stride` widening can
push `high` one stride past the newest index, as the counterexample
shows). -/
theorem C2_amended_bracket_bounds (post : Nat → Option Article) (newest : Nat)
    (tStart tEnd : Int) (stride low high : Nat)
    (h : find_article_range_by_time post newest tStart tEnd stride = some (low, high)) :
    1 ≤ low ∧ high ≤ newest + stride := by
  rw [find_article_range_by_time] at h
  obtain ⟨h2, hlow, hhigh⟩ := locate_some_elim _ tStart tEnd stride low high h
  have hne : collectSamples post tStart stride newest ≠ [] := by
    intro hnil
    rw [hnil] at h2
    simp at h2
  constructor
  · rw [hlow, scanSamples_fst]
    cases hfS : (collectSamples post tStart stride newest).find? fun p =>
        decide (sampleTod p.2 ≤ tStart) with
    | some ps => simp [hfS]
    | none => simp [hfS]
  · rcases scanSamples_snd_cases tStart tEnd stride
        (collectSamples post tStart stride newest) none with hsnd | ⟨p, hp, hsnd⟩
    · rw [hhigh, hsnd, Option.getD_none]
      obtain ⟨s, rest, hcons⟩ := List.exists_cons_of_ne_nil hne
      have hsmem : s ∈ collectSamples post tStart stride newest := by
        rw [hcons]
        exact List.mem_cons_self _ _
      have := (collectSamples_mem_bounds post tStart stride newest s hsmem).2
      rw [hcons, List.headD_cons]
      omega
    · rw [hhigh, hsnd, Option.getD_some]
      have := (collectSamples_mem_bounds post tStart stride newest p hp).2
      omega

/-- Witness for the amended C2 at the counterexample board: the bracket is
`(900, 1100)` with `1 ≤ 900` and `1100 ≤ 1000 + 100`. -/
theorem C2_amended_bracket_bounds_witness : (1 : Nat) ≤ 900 ∧ (1100 : Nat) ≤ 1000 + 100 :=
  C2_amended_bracket_bounds (fun _ => some ⟨some 0, []⟩) 1000 600 600 100 900 1100 (by decide)

/-- Board used to exhibit the early-stop behaviour: articles at indices
1000 (11:30), 900 (11:10) and 800 (00:00), nothing else. -/
def C3board : Nat → Option Article := fun i =>
  if i = 1000 then some ⟨some 41400, []⟩
  else if i = 900 then some ⟨some 40200, []⟩
  else if i = 800 then some ⟨some 0, []⟩ else none

/-- C3 counterexample: with window start `12:00` (43200 s) and samples at
`11:30` (index 1000) and `11:10` (index 900), `Δt = 20 min`, so the
claim's tolerance is `max(10 min, 20 min) × 2 = 40 min`; the sample at
`11:30` is only 30 min earlier than the window start, so the claim says
the early stop must not fire — yet the code fires it (it only tests the
most recent sample) and halts sampling with index 800 still fetchable. -/
theorem C3_counterexample :
    earlyStop 43200 41400 40200 = true ∧
      earlyStopClaim 43200 41400 40200 = false ∧
      C3board 800 = some ⟨some 0, []⟩ ∧
      collectSamplesAux C3board 43200 100 1000 1000 [] = [(900, 40200), (1000, 41400)] := by
  refine ⟨by decide, by decide, by decide, by decide⟩

/-- C3 amended: during sampling, right after a sample is appended with at
least one earlier sample present, the early stop fires exactly when the
most recent sample's time-of-day is earlier than the window's start time
by more than the tolerance, where `tolerance = max(10 minutes, |Δt between
the two most recent consecutive samples|) × 2` (the second most recent
sample's own distance to the window start is not consulted); when it
fires, sampling halts before taking another sample. -/
theorem C3_amended_early_stop (post : Nat → Option Article) (tStart : Int)
    (stride fuel current : Nat) (a : Article) (dtm : Int) (prev : Nat × Int)
    (tl : List (Nat × Int)) (hc : current ≠ 0) (hpost : post current = some a)
    (hdate : a.date = some dtm) :
    (earlyStop tStart prev.2 dtm = true ↔
        (sampleTod dtm < tStart ∧
          2 * max 600 |prev.2 - dtm| < tStart - sampleTod dtm)) ∧
      (earlyStop tStart prev.2 dtm = true →
        collectSamplesAux post tStart stride (fuel + 1) current (prev :: tl) =
          (current, dtm) :: prev :: tl) := by
  constructor
  · simp [earlyStop]
  · intro hfire
    rw [collectSamplesAux_step_cons post tStart stride fuel current a dtm prev tl hc
      hpost hdate, if_pos hfire]

/-- Witness for the amended C3: the early stop fires at the counterexample
board's second sample and sampling indeed halts there. -/
theorem C3_amended_early_stop_witness :
    (earlyStop 43200 41400 40200 = true ↔
        (sampleTod 40200 < 43200 ∧
          2 * max 600 |(41400 : Int) - 40200| < 43200 - sampleTod 40200)) ∧
      collectSamplesAux C3board 43200 100 4 900 [(1000, 41400)] =
        [(900, 40200), (1000, 41400)] :=
  ⟨(C3_amended_early_stop C3board 43200 100 3 900 ⟨some 40200, []⟩ 40200 (1000, 41400) []
      (by decide) (by decide) (by decide)).1,
    (C3_amended_early_stop C3board 43200 100 3 900 ⟨some 40200, []⟩ 40200 (1000, 41400) []
      (by decide) (by decide) (by decide)).2 (by decide)⟩

/-! ### The calendar date-range scan -/

theorem dateScan_step_stop (post : Nat → Option Article) (startT endT : Int)
    (stopExcl n : Nat) (hstop : n + 1 ≤ stopExcl) :
    dateScan post startT endT stopExcl (n + 1) = [] := by
  rw [dateScan]
  simp [hstop]

theorem dateScan_step_skip (post : Nat → Option Article) (startT endT : Int)
    (stopExcl n : Nat) (hstop : ¬ n + 1 ≤ stopExcl) (hpost : post (n + 1) = none) :
    dateScan post startT endT stopExcl (n + 1) = dateScan post startT endT stopExcl n := by
  rw [dateScan]
  simp [hstop, hpost]

theorem dateScan_step_nodate (post : Nat → Option Article) (startT endT : Int)
    (stopExcl n : Nat) (a : Article) (hstop : ¬ n + 1 ≤ stopExcl)
    (hpost : post (n + 1) = some a) (hdate : a.date = none) :
    dateScan post startT endT stopExcl (n + 1) = dateScan post startT endT stopExcl n := by
  rw [dateScan]
  simp [hstop, hpost, hdate]

theorem dateScan_step_keep (post : Nat → Option Article) (startT endT : Int)
    (stopExcl n : Nat) (a : Article) (dtm : Int) (hstop : ¬ n + 1 ≤ stopExcl)
    (hpost : post (n + 1) = some a) (hdate : a.date = some dtm)
    (hin : startT ≤ dtm ∧ dtm ≤ endT) :
    dateScan post startT endT stopExcl (n + 1) =
      (n + 1, a) :: dateScan post startT endT stopExcl n := by
  rw [dateScan]
  simp [hstop, hpost, hdate, hin]

theorem dateScan_step_break (post : Nat → Option Article) (startT endT : Int)
    (stopExcl n : Nat) (a : Article) (dtm : Int) (hstop : ¬ n + 1 ≤ stopExcl)
    (hpost : post (n + 1) = some a) (hdate : a.date = some dtm) (hlt : dtm < startT) :
    dateScan post startT endT stopExcl (n + 1) = [] := by
  have hnin : ¬ (startT ≤ dtm ∧ dtm ≤ endT) := fun h => absurd hlt (not_lt.mpr h.1)
  rw [dateScan]
  simp [hstop, hpost, hdate, hnin, hlt]

theorem dateScan_step_old (post : Nat → Option Article) (startT endT : Int)
    (stopExcl n : Nat) (a : Article) (dtm : Int) (hstop : ¬ n + 1 ≤ stopExcl)
    (hpost : post (n + 1) = some a) (hdate : a.date = some dtm) (hge : startT ≤ dtm)
    (hgt : endT < dtm) :
    dateScan post startT endT stopExcl (n + 1) = dateScan post startT endT stopExcl n := by
  have hnin : ¬ (startT ≤ dtm ∧ dtm ≤ endT) := fun h => absurd hgt (not_lt.mpr h.2)
  have hnlt : ¬ dtm < startT := not_lt.mpr hge
  rw [dateScan]
  simp [hstop, hpost, hdate, hnin, hnlt]

/-- Membership characterization of the backward calendar scan: an entry is
collected exactly when its index lies in the scanned range
`(stopExcl, n]`, it carries a parsed date inside `[startT, endT]`, and no
entry at a higher scanned index has a parsed date before `startT` (such an
entry breaks the scan before reaching lower indices). -/
theorem dateScan_mem (post : Nat → Option Article) (startT endT : Int) (stopExcl : Nat) :
    ∀ (n i : Nat) (a : Article),
      (i, a) ∈ dateScan post startT endT stopExcl n ↔
        ((stopExcl < i ∧ i ≤ n ∧ post i = some a ∧
          ∃ dtm, a.date = some dtm ∧ startT ≤ dtm ∧ dtm ≤ endT) ∧
          ∀ j, i < j → j ≤ n → ∀ (b : Article) (d : Int), post j = some b →
            b.date = some d → startT ≤ d) := by
  intro n
  induction n with
  | zero =>
    intro i a
    simp only [dateScan, List.not_mem_nil, false_iff]
    rintro ⟨⟨h1, h2, _⟩, _⟩
    omega
  | succ n ih =>
    intro i a
    by_cases hstop : n + 1 ≤ stopExcl
    · rw [dateScan_step_stop post startT endT stopExcl n hstop]
      simp only [List.not_mem_nil, false_iff]
      rintro ⟨⟨h1, h2, _⟩, _⟩
      omega
    · cases hpost : post (n + 1) with
      | none =>
        rw [dateScan_step_skip post startT endT stopExcl n hstop hpost, ih i a]
        constructor
        · rintro ⟨⟨h1, h2, h3, hd⟩, hj⟩
          refine ⟨⟨h1, by omega, h3, hd⟩, ?_⟩
          intro j hij hjn b d hb hd2
          by_cases hj1 : j = n + 1
          · rw [hj1, hpost] at hb
            exact absurd hb (by simp)
          · exact hj j hij (by omega) b d hb hd2
        · rintro ⟨⟨h1, h2, h3, hd⟩, hj⟩
          have hin : i ≤ n := by
            by_cases hi1 : i = n + 1
            · rw [hi1, hpost] at h3
              exact absurd h3 (by simp)
            · omega
          exact ⟨⟨h1, hin, h3, hd⟩, fun j hij hjn b d hb hd2 => hj j hij (by omega) b d hb hd2⟩
      | some a0 =>
        cases hdate : a0.date with
        | none =>
          rw [dateScan_step_nodate post startT endT stopExcl n a0 hstop hpost hdate, ih i a]
          constructor
          · rintro ⟨⟨h1, h2, h3, hd⟩, hj⟩
            refine ⟨⟨h1, by omega, h3, hd⟩, ?_⟩
            intro j hij hjn b d hb hd2
            by_cases hj1 : j = n + 1
            · rw [hj1, hpost] at hb
              have hb' : a0 = b := by injection hb
              rw [← hb', hdate] at hd2
              exact absurd hd2 (by simp)
            · exact hj j hij (by omega) b d hb hd2
          · rintro ⟨⟨h1, h2, h3, hd⟩, hj⟩
            have hin : i ≤ n := by
              by_cases hi1 : i = n + 1
              · rw [hi1, hpost] at h3
                have h3' : a0 = a := by injection h3
                obtain ⟨dtm, hdd, _⟩ := hd
                rw [← h3', hdate] at hdd
                exact absurd hdd (by simp)
              · omega
            exact ⟨⟨h1, hin, h3, hd⟩, fun j hij hjn b d hb hd2 => hj j hij (by omega) b d hb hd2⟩
        | some dtm =>
          by_cases hge : startT ≤ dtm
          · by_cases hle : dtm ≤ endT
            · rw [dateScan_step_keep post startT endT stopExcl n a0 dtm hstop hpost hdate
                ⟨hge, hle⟩]
              rw [List.mem_cons, Prod.mk.injEq, ih i a]
              constructor
              · rintro (⟨rfl, rfl⟩ | ⟨⟨h1, h2, h3, hd⟩, hj⟩)
                · refine ⟨⟨by omega, le_rfl, hpost, ⟨dtm, hdate, hge, hle⟩⟩, ?_⟩
                  intro j hij hjn _ _ _ _
                  omega
                · refine ⟨⟨h1, by omega, h3, hd⟩, ?_⟩
                  intro j hij hjn b d hb hd2
                  by_cases hj1 : j = n + 1
                  · rw [hj1, hpost] at hb
                    have hb' : a0 = b := by injection hb
                    rw [← hb', hdate] at hd2
                    have : dtm = d := by injection hd2
                    omega
                  · exact hj j hij (by omega) b d hb hd2
              · rintro ⟨⟨h1, h2, h3, hd⟩, hj⟩
                by_cases hi1 : i = n + 1
                · left
                  subst hi1
                  rw [hpost] at h3
                  have h3' : a0 = a := by injection h3
                  exact ⟨rfl, h3'.symm⟩
                · right
                  exact ⟨⟨h1, by omega, h3, hd⟩,
                    fun j hij hjn b d hb hd2 => hj j hij (by omega) b d hb hd2⟩
            · rw [dateScan_step_old post startT endT stopExcl n a0 dtm hstop hpost hdate hge
                (by omega), ih i a]
              constructor
              · rintro ⟨⟨h1, h2, h3, hd⟩, hj⟩
                refine ⟨⟨h1, by omega, h3, hd⟩, ?_⟩
                intro j hij hjn b d hb hd2
                by_cases hj1 : j = n + 1
                · rw [hj1, hpost] at hb
                  have hb' : a0 = b := by injection hb
                  rw [← hb', hdate] at hd2
                  have : dtm = d := by injection hd2
                  omega
                · exact hj j hij (by omega) b d hb hd2
              · rintro ⟨⟨h1, h2, h3, hd⟩, hj⟩
                have hin : i ≤ n := by
                  by_cases hi1 : i = n + 1
                  · subst hi1
                    rw [hpost] at h3
                    have h3' : a0 = a := by injection h3
                    obtain ⟨d, hdd, _, hdle⟩ := hd
                    rw [← h3', hdate] at hdd
                    have : dtm = d := by injection hdd
                    omega
                  · omega
                exact ⟨⟨h1, hin, h3, hd⟩,
                  fun j hij hjn b d hb hd2 => hj j hij (by omega) b d hb hd2⟩
          · rw [dateScan_step_break post startT endT stopExcl n a0 dtm hstop hpost hdate
              (by omega)]
            simp only [List.not_mem_nil, false_iff]
            rintro ⟨⟨h1, h2, h3, hd⟩, hj⟩
            by_cases hi1 : i = n + 1
            · subst hi1
              rw [hpost] at h3
              have h3' : a0 = a := by injection h3
              obtain ⟨d, hdd, hdge, _⟩ := hd
              rw [← h3', hdate] at hdd
              have : dtm = d := by injection hdd
              omega
            · have := hj (n + 1) (by omega) le_rfl a0 dtm hpost hdate
              omega

/-- Board used for the C4 counterexample: a single entry at index 10,
posted on calendar day 1 at 10:00 (timestamp `86400 + 36000`). -/
def C4board : Nat → Option Article := fun i =>
  if i = 10 then some ⟨some 122400, []⟩ else none

/-- C4 counterexample: querying days `[0, 1]` on a board whose only entry
was posted on the end date (day 1) at 10:00 returns the empty list — the
code compares against midnight of the end date (`1 * 86400`), so an entry
posted later in the day on the end date is not included, contradicting the
claim that any time of day on `endDate` is included. -/
theorem C4_counterexample :
    get_articles_by_date_range C4board 10 0 1 = [] ∧
      C4board 10 = some ⟨some 122400, []⟩ ∧
      (1 * 86400 ≤ (122400 : Int) ∧ (122400 : Int) < (1 + 1) * 86400) := by
  refine ⟨by decide, by decide, by decide, by decide⟩

/-- C4 amended: a `CalendarRange(startDate, endDate)` query returns
exactly the scanned entries (indices in `(max(1, newest − 1000), newest]`)
whose parsed timestamp lies in the inclusive interval from midnight of
`startDate` to midnight of `endDate` — so an entry posted strictly after
00:00 on `endDate` is excluded — such that no higher scanned index holds a
parsed entry dated before midnight of `startDate`: the backward scan stops
at the first such entry, excluding it and all older indices. -/
theorem C4_amended_date_range (post : Nat → Option Article) (newest : Nat) (sd ed : Int)
    (i : Nat) (a : Article) :
    (i, a) ∈ get_articles_by_date_range post newest sd ed ↔
      ((max 1 (newest - 1000) < i ∧ i ≤ newest ∧ post i = some a ∧
        ∃ dtm, a.date = some dtm ∧ sd * 86400 ≤ dtm ∧ dtm ≤ ed * 86400) ∧
        ∀ j, i < j → j ≤ newest → ∀ (b : Article) (d : Int), post j = some b →
          b.date = some d → sd * 86400 ≤ d) :=
  dateScan_mem post (sd * 86400) (ed * 86400) (max 1 (newest - 1000)) newest i a

/-- C6: Whenever sampling yields fewer than 2 usable samples, the locator
returns `(None, None)` (unresolved), and the enclosing time-ranged query
returns the empty list instead of raising (the logged warning is outside
the embedding; returning a value at all models the absence of an
exception). -/
theorem C6_unresolved_empty_result (post : Nat → Option Article) (newest : Nat)
    (tStart tEnd : Int) (stride : Nat) :
    ((collectSamples post tStart stride newest).length < 2 →
        find_article_range_by_time post newest tStart tEnd stride = none) ∧
      ((collectSamples post tStart 100 newest).length < 2 →
        get_articles_by_time_range post newest tStart tEnd = []) := by
  constructor
  · intro h
    rw [find_article_range_by_time, locate, if_pos h]
  · intro h
    have hfind : find_article_range_by_time post newest tStart tEnd 100 = none := by
      rw [find_article_range_by_time, locate, if_pos h]
    rw [get_articles_by_time_range, hfind]

/-- Witness for C6 on a board where every fetch fails: no samples are
collected, the locator is unresolved and the query returns `[]`. -/
theorem C6_unresolved_empty_result_witness :
    find_article_range_by_time (fun _ => none) 3 0 86400 100 = none ∧
      get_articles_by_time_range (fun _ => none) 3 0 86400 = [] :=
  ⟨(C6_unresolved_empty_result (fun _ => none) 3 0 86400 100).1 (by decide),
    (C6_unresolved_empty_result (fun _ => none) 3 0 86400 100).2 (by decide)⟩

/-- C7: The comment-keyword search output is a sub-sequence of its input
(relative order preserved); it contains exactly the articles some comment
of which contains the keyword case-insensitively (the code checks each
article's comments in order, breaking at the first match); in particular
keyword `推` keeps an article whose comments are `[{content: 好文推}]` and
drops one whose comments are `[{content: 無關}]`. -/
theorem C7_comment_keyword_search :
    (∀ (kw : List Char) (arts : List (Nat × Article)),
        (commentKeywordFilter kw arts).Sublist arts) ∧
      (∀ (kw : List Char) (arts : List (Nat × Article)) (p : Nat × Article),
        p ∈ commentKeywordFilter kw arts ↔
          p ∈ arts ∧ ∃ c ∈ p.2.comments, lowerStr kw <:+: lowerStr c.content) ∧
      commentKeywordFilter ("推").data
          [(1, ⟨none, [⟨[], ("好文推").data⟩]⟩), (2, ⟨none, [⟨[], ("無關").data⟩]⟩)] =
        [(1, ⟨none, [⟨[], ("好文推").data⟩]⟩)] := by
  refine ⟨fun kw arts => List.filter_sublist _, fun kw arts p => ?_, by decide⟩
  rw [commentKeywordFilter, List.mem_filter]
  simp [List.any_eq_true, commentHasKw]

/-- C8: In the time-of-day filtering stage, a fetched entry appears in the
output iff its date string parsed (modelled by `date = some dtm`) and the
parsed timestamp's time-of-day lies in `[tStart, tEnd]` inclusive; an
entry with a missing or unparseable date is dropped, never an error (the
filter is total). -/
theorem C8_time_of_day_filter (tStart tEnd : Int) (arts : List (Nat × Article))
    (p : Nat × Article) :
    p ∈ timeFilter tStart tEnd arts ↔
      p ∈ arts ∧ ∃ dtm, p.2.date = some dtm ∧
        tStart ≤ sampleTod dtm ∧ sampleTod dtm ≤ tEnd := by
  rw [timeFilter, List.mem_filter]
  constructor
  · rintro ⟨hmem, hpred⟩
    refine ⟨hmem, ?_⟩
    cases hdate : p.2.date with
    | none => rw [hdate] at hpred; exact absurd hpred (by simp)
    | some dtm =>
      rw [hdate] at hpred
      simp only [Bool.and_eq_true, decide_eq_true_eq] at hpred
      exact ⟨dtm, rfl, hpred.1, hpred.2⟩
  · rintro ⟨hmem, dtm, hdate, h1, h2⟩
    refine ⟨hmem, ?_⟩
    rw [hdate]
    simp [h1, h2]

/-- Fuel stability of the embedded sampling loop: for a positive stride
any fuel of at least the starting index yields the same run — the loop
needs at most `current` iterations, i.e. it terminates. -/
theorem collectSamplesAux_fuel_stable (post : Nat → Option Article) (tStart : Int)
    (stride : Nat) (hst : 0 < stride) :
    ∀ (fuel fuel' current : Nat) (acc : List (Nat × Int)), current ≤ fuel →
      current ≤ fuel' →
      collectSamplesAux post tStart stride fuel current acc =
        collectSamplesAux post tStart stride fuel' current acc := by
  intro fuel
  induction fuel with
  | zero =>
    intro fuel' current acc h1 h2
    have hc : current = 0 := by omega
    subst hc
    rw [collectSamplesAux_zero, collectSamplesAux_zero]
  | succ fuel ih =>
    intro fuel' current acc h1 h2
    by_cases hc : current = 0
    · subst hc
      rw [collectSamplesAux_zero, collectSamplesAux_zero]
    · cases fuel' with
      | zero => omega
      | succ f' =>
        have hra : current - stride ≤ fuel := by omega
        have hrb : current - stride ≤ f' := by omega
        cases hpost : post current with
        | none =>
          rw [collectSamplesAux_step_skip post tStart stride fuel current acc hc hpost,
            collectSamplesAux_step_skip post tStart stride f' current acc hc hpost]
          by_cases hlen : 1000 ≤ acc.length
          · rw [if_pos hlen, if_pos hlen]
          · rw [if_neg hlen, if_neg hlen]
            exact ih f' (current - stride) acc hra hrb
        | some a =>
          cases hdate : a.date with
          | none =>
            rw [collectSamplesAux_step_nodate post tStart stride fuel current acc a hc
              hpost hdate,
              collectSamplesAux_step_nodate post tStart stride f' current acc a hc
              hpost hdate]
            by_cases hlen : 1000 ≤ acc.length
            · rw [if_pos hlen, if_pos hlen]
            · rw [if_neg hlen, if_neg hlen]
              exact ih f' (current - stride) acc hra hrb
          | some dtm =>
            cases acc with
            | nil =>
              rw [collectSamplesAux_step_first post tStart stride fuel current a dtm hc
                hpost hdate,
                collectSamplesAux_step_first post tStart stride f' current a dtm hc
                hpost hdate]
              exact ih f' (current - stride) [(current, dtm)] hra hrb
            | cons prev tl =>
              rw [collectSamplesAux_step_cons post tStart stride fuel current a dtm prev tl
                hc hpost hdate,
                collectSamplesAux_step_cons post tStart stride f' current a dtm prev tl
                hc hpost hdate]
              by_cases hstop : earlyStop tStart prev.2 dtm
              · rw [if_pos hstop, if_pos hstop]
              · rw [if_neg hstop, if_neg hstop]
                by_cases hlen : 1000 ≤ ((current, dtm) :: prev :: tl).length
                · rw [if_pos hlen, if_pos hlen]
                · rw [if_neg hlen, if_neg hlen]
                  exact ih f' (current - stride) ((current, dtm) :: prev :: tl) hra hrb

/-- The 1000-sample safety ceiling: a run started below the ceiling never
accumulates more than 1000 samples. -/
theorem collectSamplesAux_length_le (post : Nat → Option Article) (tStart : Int)
    (stride : Nat) :
    ∀ (fuel current : Nat) (acc : List (Nat × Int)), acc.length < 1000 →
      (collectSamplesAux post tStart stride fuel current acc).length ≤ 1000 := by
  intro fuel
  induction fuel with
  | zero =>
    intro current acc hlen
    simp only [collectSamplesAux]
    omega
  | succ fuel ih =>
    intro current acc hlen
    by_cases hc : current = 0
    · subst hc
      rw [collectSamplesAux_zero]
      omega
    · cases hpost : post current with
      | none =>
        rw [collectSamplesAux_step_skip post tStart stride fuel current acc hc hpost]
        by_cases h1000 : 1000 ≤ acc.length
        · rw [if_pos h1000]; omega
        · rw [if_neg h1000]; exact ih (current - stride) acc hlen
      | some a =>
        cases hdate : a.date with
        | none =>
          rw [collectSamplesAux_step_nodate post tStart stride fuel current acc a hc
            hpost hdate]
          by_cases h1000 : 1000 ≤ acc.length
          · rw [if_pos h1000]; omega
          · rw [if_neg h1000]; exact ih (current - stride) acc hlen
        | some dtm =>
          cases acc with
          | nil =>
            rw [collectSamplesAux_step_first post tStart stride fuel current a dtm hc
              hpost hdate]
            exact ih (current - stride) [(current, dtm)] (by simp)
          | cons prev tl =>
            rw [collectSamplesAux_step_cons post tStart stride fuel current a dtm prev tl
              hc hpost hdate]
            by_cases hstop : earlyStop tStart prev.2 dtm
            · rw [if_pos hstop]
              simp only [List.length_cons] at hlen ⊢
              omega
            · rw [if_neg hstop]
              by_cases h1000 : 1000 ≤ ((current, dtm) :: prev :: tl).length
              · rw [if_pos h1000]
                simp only [List.length_cons] at hlen ⊢
                omega
              · rw [if_neg h1000]
                refine ih (current - stride) ((current, dtm) :: prev :: tl) ?_
                simp only [List.length_cons] at h1000 ⊢
                omega

/-- C9: The sampling loop terminates for every board state — each
iteration decreases the index by the stride, the loop exits once the index
reaches 0, so fuel equal to the starting index suffices for any positive
stride (fuel stability) — and the hard ceiling keeps the collected samples
at most 1000; in particular with `newestIndex = 50` and `stride = 100` the
loop performs exactly one sampling step (at index 50: at most one sample,
whatever the board holds there) before the index falls below zero. -/
theorem C9_sampling_terminates :
    (∀ (post : Nat → Option Article) (tStart : Int) (stride fuel fuel' current : Nat)
        (acc : List (Nat × Int)), 0 < stride → current ≤ fuel → current ≤ fuel' →
        collectSamplesAux post tStart stride fuel current acc =
          collectSamplesAux post tStart stride fuel' current acc) ∧
      (∀ (post : Nat → Option Article) (tStart : Int) (stride fuel current : Nat),
        (collectSamplesAux post tStart stride fuel current []).length ≤ 1000) ∧
      (∀ (post : Nat → Option Article) (tStart : Int),
        collectSamples post tStart 100 50 =
          match post 50 with
          | some a =>
            match a.date with
            | some d => [(50, d)]
            | none => []
          | none => []) := by
  refine ⟨fun post tStart stride fuel fuel' current acc hst h1 h2 =>
      collectSamplesAux_fuel_stable post tStart stride hst fuel fuel' current acc h1 h2,
    fun post tStart stride fuel current =>
      collectSamplesAux_length_le post tStart stride fuel current [] (by simp),
    ?_⟩
  intro post tStart
  show (collectSamplesAux post tStart 100 (49 + 1) 50 []).reverse = _
  have hn : ¬ (1000 ≤ ([] : List (Nat × Int)).length) := by norm_num
  cases hpost : post 50 with
  | none =>
    rw [collectSamplesAux_step_skip post tStart 100 49 50 [] (by omega) hpost, if_neg hn,
      show (50 - 100 : Nat) = 0 from rfl, collectSamplesAux_zero]
    rfl
  | some a =>
    cases hdate : a.date with
    | none =>
      rw [collectSamplesAux_step_nodate post tStart 100 49 50 [] a (by omega) hpost hdate,
        if_neg hn, show (50 - 100 : Nat) = 0 from rfl, collectSamplesAux_zero]
      simp [hdate]
    | some d =>
      rw [collectSamplesAux_step_first post tStart 100 49 50 a d (by omega) hpost hdate,
        show (50 - 100 : Nat) = 0 from rfl, collectSamplesAux_zero]
      simp [hdate]

/-- Witness for C9: fuel stability applied at a concrete board and stride,
and the ceiling bound at a concrete run. -/
theorem C9_sampling_terminates_witness :
    collectSamplesAux (fun _ => none) 0 100 60 50 [] =
      collectSamplesAux (fun _ => none) 0 100 50 50 [] :=
  C9_sampling_terminates.1 (fun _ => none) 0 100 60 50 50 [] (by decide) (by decide)
    (by decide)

/-- Board on which every fetch fails; used by witnesses. -/
def emptyBoard : Nat → Option Article := fun _ => none

/-- C10: For each query operation taking optional `start_time` and
`end_time` (`get_articles`, `search_by_title`, `search_by_author`,
`search_by_comment_content`, `search_comments_by_author`), when exactly
one of the two is truthy (the other absent or the empty string), the time
filter is silently ignored: the count-based path runs, fetching the newest
`count` indices, exactly as if no time window had been requested. -/
theorem C10_single_time_bound_ignored (post : Nat → Option Article) (newestF : Option Nat)
    (count : Nat) (kw author : List Char) (st et : Option (List Char))
    (h : (truthy st = true ∧ truthy et = false) ∨ (truthy st = false ∧ truthy et = true)) :
    get_articles post newestF count st et =
        (newestF.map fun newest => countFetch post newest count) ∧
      get_articles post newestF count st et = get_articles post newestF count none none ∧
      search_by_title post newestF count st et =
        search_by_title post newestF count none none ∧
      search_by_author post newestF count st et =
        search_by_author post newestF count none none ∧
      search_by_comment_content post newestF kw count st et =
        search_by_comment_content post newestF kw count none none ∧
      search_comments_by_author post newestF author count st et =
        search_comments_by_author post newestF author count none none := by
  have hcond : (truthy st && truthy et) = false := by
    rcases h with ⟨h1, h2⟩ | ⟨h1, h2⟩ <;> rw [h1, h2] <;> rfl
  have hnone : truthy (none : Option (List Char)) = false := rfl
  refine ⟨?_, ?_, ?_, ?_, ?_, ?_⟩ <;>
    simp [get_articles, search_by_title, search_by_author, search_by_comment_content,
      search_comments_by_author, hcond, hnone]

/-- Witness for C10: with only `start_time` provided, `get_articles` takes
the count-based path. -/
theorem C10_single_time_bound_ignored_witness :
    get_articles emptyBoard (some 3) 2 (some ("12:00").data) none =
      ((some 3 : Option Nat).map fun newest => countFetch emptyBoard newest 2) :=
  (C10_single_time_bound_ignored emptyBoard (some 3) 2 [] [] (some ("12:00").data) none
    (Or.inl ⟨by decide, by decide⟩)).1

end Crawler
